import Mathlib

/-!
# Yahtzee scoring rules (`src/Rules.js`)

A shallow embedding of the scoring engine of the Yahtzee dice game.

* A roll is a `List Int` (the JavaScript array of die values). JavaScript numbers
  are doubles: `+` and `*` on integers are the exact integer operations as long
  as every operand and result stays below `2^53` in absolute value. The dice of a
  roll show 1 to 6, so every sum and product of the scoring rules stays below
  `2^53`; every statement about `Rule.sum` is made for dice in that range.
* A JavaScript `Map` is an association list kept in insertion order, a
  JavaScript `Set` is a duplicate-free list kept in insertion order.
* A call that throws (`Array.prototype.reduce` on an empty array without an
  initial value raises a `TypeError`) returns `none`; a call that returns the
  number `s` returns `some s`.
-/

namespace Rules

/-! ## JavaScript `Map` and `Set`, in insertion order -/

/-- A JavaScript `Map` from die values to numbers: the entries in insertion order. -/
abbrev JsMap := List (Int × Nat)

/-- The call `m.get(k)`: the value stored under `k`, `none` for `undefined`. -/
def JsMap.get (m : JsMap) (k : Int) : Option Nat :=
  (m.find? (fun e => e.1 == k)).map (fun e => e.2)

/-- The call `m.set(k, v)`: an existing key keeps its position and gets the new
value, a new key is appended after all existing entries. -/
def JsMap.set (m : JsMap) (k : Int) (v : Nat) : JsMap :=
  if m.any (fun e => e.1 == k) then m.map (fun e => if e.1 = k then (k, v) else e)
  else m ++ [(k, v)]

/-- The call `Array.from(m.values())`: the stored values in insertion order. -/
def JsMap.values (m : JsMap) : List Nat :=
  m.map (fun e => e.2)

/-- The expression `x || 0` for `x` a count or `undefined`: both `undefined` and
`0` are falsy and give `0`. -/
def orZero : Option Nat → Nat
  | none => 0
  | some c => if c = 0 then 0 else c

/-- A JavaScript `Set` of die values: the members in insertion order. -/
abbrev JsSet := List Int

/-- The call `s.add(d)`: a member already present is not added again. -/
def JsSet.add (s : JsSet) (d : Int) : JsSet :=
  if d ∈ s then s else s ++ [d]

/-- The constructor call `new Set(dice)`: the dice are added one after another. -/
def JsSet.ofArray (dice : List Int) : JsSet :=
  dice.foldl JsSet.add []

/-- The call `s.has(d)`. -/
def JsSet.has (s : JsSet) (d : Int) : Bool :=
  decide (d ∈ s)

/-- The property `s.size`. -/
def JsSet.size (s : JsSet) : Nat :=
  s.length

/-! ## The base class `Rule` -/

/-- A rule object of the catalogue: its `description` and its `evalRoll`
function. `evalRoll` returns `none` when the JavaScript call throws. -/
structure Rule where
  /-- The text shown for the rule. -/
  description : String
  /-- The score of a roll under the rule. -/
  evalRoll : List Int → Option Int

/-- The method `Rule.sum`: `dice.reduce((prev, curr) => prev + curr)`. Without an
initial value `reduce` throws on an empty array, and otherwise starts from the
first element. The addition is integer addition, which is what `+` computes on
doubles while all partial sums stay below `2^53`: this holds for every array of
dice showing 1 to 6 (an array has fewer than `2^32` elements), and the value is
not meant for dice beyond that bound. -/
def Rule.sum : List Int → Option Int
  | [] => none
  | d :: ds => some (ds.foldl (fun prev curr => prev + curr) d)

/-- The loop of `Rule.freq`: `for (let d of dice) freqs.set(d, (freqs.get(d) || 0) + 1)`,
started from the map `freqs`. -/
def Rule.freqLoop (freqs : JsMap) (dice : List Int) : JsMap :=
  dice.foldl (fun m d => JsMap.set m d (orZero (JsMap.get m d) + 1)) freqs

/-- The method `Rule.freq`: the frequencies of the die values. -/
def Rule.freq (dice : List Int) : List Nat :=
  JsMap.values (Rule.freqLoop [] dice)

/-- The method `Rule.count`: `dice.filter(d => d === val).length`. -/
def Rule.count (dice : List Int) (val : Int) : Nat :=
  (dice.filter (fun d => d == val)).length

/-! ## The rule classes -/

/-- The method `TotalOneNumber.evalRoll`: `this.val * this.count(dice, this.val)`. -/
def TotalOneNumber.evalRoll (val : Int) (dice : List Int) : Option Int :=
  some (val * (Rule.count dice val : Int))

/-- The method `SumDistro.evalRoll`:
`this.freq(dice).some(c => c >= this.count) ? this.sum(dice) : 0`. The parameter
`count` is the instance property set from the constructor parameters. -/
def SumDistro.evalRoll (count : Nat) (dice : List Int) : Option Int :=
  if (Rule.freq dice).any (fun c => decide (c ≥ count)) then Rule.sum dice else some 0

/-- The method `FullHouse.evalRoll`: `freqs.includes(2) && freqs.includes(3) ? this.score : 0`. -/
def FullHouse.evalRoll (score : Int) (dice : List Int) : Option Int :=
  let freqs := Rule.freq dice
  if freqs.contains 2 && freqs.contains 3 then some score else some 0

/-- The method `SmallStraight.evalRoll`: 2, 3, 4 with 1 or 5, or 3, 4, 5 with 2 or 6. -/
def SmallStraight.evalRoll (score : Int) (dice : List Int) : Option Int :=
  let d := JsSet.ofArray dice
  if JsSet.has d 2 && JsSet.has d 3 && JsSet.has d 4 && (JsSet.has d 1 || JsSet.has d 5) then
    some score
  else if JsSet.has d 3 && JsSet.has d 4 && JsSet.has d 5 && (JsSet.has d 2 || JsSet.has d 6) then
    some score
  else some 0

/-- The method `LargeStraight.evalRoll`:
`d.size === 5 && (!d.has(1) || !d.has(6)) ? this.score : 0`. -/
def LargeStraight.evalRoll (score : Int) (dice : List Int) : Option Int :=
  let d := JsSet.ofArray dice
  if decide (JsSet.size d = 5) && (!JsSet.has d 1 || !JsSet.has d 6) then some score else some 0

/-- The method `Yahtzee.evalRoll`: `this.freq(dice)[0] === 5 ? this.score : 0`. Indexing past
the end gives `undefined`, which is not `5`. -/
def Yahtzee.evalRoll (score : Int) (dice : List Int) : Option Int :=
  if (Rule.freq dice)[0]? = some 5 then some score else some 0

/-- The constructor call `new TotalOneNumber({ val, description })`. -/
def TotalOneNumber (val : Int) (description : String) : Rule :=
  Rule.mk description (TotalOneNumber.evalRoll val)

/-- The constructor call `new SumDistro({ count, description })`. -/
def SumDistro (count : Nat) (description : String) : Rule :=
  Rule.mk description (SumDistro.evalRoll count)

/-- The constructor call `new FullHouse({ score, description })`. -/
def FullHouse (score : Int) (description : String) : Rule :=
  Rule.mk description (FullHouse.evalRoll score)

/-- The constructor call `new SmallStraight({ score, description })`. -/
def SmallStraight (score : Int) (description : String) : Rule :=
  Rule.mk description (SmallStraight.evalRoll score)

/-- The constructor call `new LargeStraight({ score, description })`. -/
def LargeStraight (score : Int) (description : String) : Rule :=
  Rule.mk description (LargeStraight.evalRoll score)

/-- The constructor call `new Yahtzee({ score, description })`. -/
def Yahtzee (score : Int) (description : String) : Rule :=
  Rule.mk description (Yahtzee.evalRoll score)

/-! ## The rule catalogue -/

def ones : Rule := TotalOneNumber 1 "1 point for each one"
def twos : Rule := TotalOneNumber 2 "2 point for each two"
def threes : Rule := TotalOneNumber 3 "3 point for each three"
def fours : Rule := TotalOneNumber 4 "4 point for each four"
def fives : Rule := TotalOneNumber 5 "5 point for each five"
def sixes : Rule := TotalOneNumber 6 "6 point for each six"
def threeOfKind : Rule := SumDistro 3 "Sum of all dice if 3 are same"
def fourOfKind : Rule := SumDistro 4 "Sum of all dice if 4 are same"
def fullHouse : Rule := FullHouse 25 "25 points if fullhouse"
def smallStraight : Rule := SmallStraight 30 "Consecutive digits score 30"
def largeStraight : Rule := LargeStraight 40 "Consecutive digits score 40"
def yahtzee : Rule := Yahtzee 50 "All digits score 50"
def chance : Rule := SumDistro 0 "Sum of all dice"

/-- The thirteen exported rules, in the order of the `export` list. -/
def catalogue : List Rule :=
  [ones, twos, threes, fours, fives, sixes, threeOfKind, fourOfKind, fullHouse,
   smallStraight, largeStraight, yahtzee, chance]

end Rules

/-! # The die component (`src/Die.js`) -/

/-- The class string built by `Die.render` and passed as `className`:
`let classes = "Die "; if (locked) classes += "Die-locked"; if (rolling) classes += "Die-rolling"`. -/
def Die.classes (locked rolling : Bool) : String :=
  let classes := "Die "
  let classes := if locked then classes ++ "Die-locked" else classes
  let classes := if rolling then classes ++ "Die-rolling" else classes
  classes

/-- The class names of a class string: the pieces between its space characters. -/
def Die.classNames (s : String) : List String :=
  (s.toList.splitOn ' ').map String.mk

namespace Rules

/-! ## The helper methods of `Rule` -/

theorem Rule.count_eq (dice : List Int) (val : Int) : Rule.count dice val = dice.count val := by
  simp [Rule.count, List.count, List.countP_eq_length_filter]

theorem foldl_add_eq (ds : List Int) (d : Int) :
    ds.foldl (fun prev curr => prev + curr) d = d + ds.sum := by
  induction ds generalizing d with
  | nil => simp
  | cons x xs ih => simp [ih, add_assoc]

theorem Rule.sum_eq (dice : List Int) (h : dice ≠ []) : Rule.sum dice = some dice.sum := by
  cases dice with
  | nil => exact absurd rfl h
  | cons d ds => simp [Rule.sum, foldl_add_eq]

/-! ## The set of the dice -/

theorem JsSet.ofArray_append (ds : List Int) (d : Int) :
    JsSet.ofArray (ds ++ [d]) = JsSet.add (JsSet.ofArray ds) d := by
  simp [JsSet.ofArray, List.foldl_append]

theorem JsSet.mem_ofArray (dice : List Int) (x : Int) : x ∈ JsSet.ofArray dice ↔ x ∈ dice := by
  induction dice using List.reverseRecOn with
  | nil => simp [JsSet.ofArray]
  | append_singleton ds d ih =>
    rw [JsSet.ofArray_append, JsSet.add]
    by_cases hd : d ∈ JsSet.ofArray ds
    · rw [if_pos hd, ih, List.mem_append, List.mem_singleton]
      constructor
      · exact fun h => Or.inl h
      · rintro (h | h)
        · exact h
        · subst h; exact ih.1 hd
    · rw [if_neg hd]
      simp [List.mem_append, ih]

theorem JsSet.nodup_ofArray (dice : List Int) : (JsSet.ofArray dice).Nodup := by
  induction dice using List.reverseRecOn with
  | nil => simp [JsSet.ofArray]
  | append_singleton ds d ih =>
    rw [JsSet.ofArray_append, JsSet.add]
    by_cases hd : d ∈ JsSet.ofArray ds
    · rw [if_pos hd]; exact ih
    · rw [if_neg hd]
      exact List.Nodup.append ih (List.nodup_singleton d) (by simpa using hd)

theorem JsSet.has_ofArray (dice : List Int) (x : Int) :
    JsSet.has (JsSet.ofArray dice) x = decide (x ∈ dice) := by
  simp [JsSet.has, JsSet.mem_ofArray]

theorem JsSet.head_foldl_add (ds : List Int) (a : Int) (s : List Int) :
    (ds.foldl JsSet.add (a :: s)).head? = some a := by
  induction ds generalizing s with
  | nil => simp
  | cons x xs ih =>
    rw [List.foldl_cons, JsSet.add]
    by_cases hx : x ∈ a :: s
    · rw [if_pos hx]; exact ih s
    · rw [if_neg hx, List.cons_append]; exact ih (s ++ [x])

theorem JsSet.head_ofArray (dice : List Int) : (JsSet.ofArray dice).head? = dice.head? := by
  cases dice with
  | nil => simp [JsSet.ofArray]
  | cons d ds =>
    simp only [JsSet.ofArray, List.foldl_cons, List.head?_cons]
    have h : JsSet.add [] d = [d] := by simp [JsSet.add]
    rw [h]; exact JsSet.head_foldl_add ds d []

theorem JsSet.size_ofArray (dice : List Int) :
    JsSet.size (JsSet.ofArray dice) = dice.length ↔ dice.Nodup := by
  have hperm : (JsSet.ofArray dice).Perm dice.dedup :=
    (List.perm_ext_iff_of_nodup (JsSet.nodup_ofArray dice) (List.nodup_dedup dice)).2
      (fun x => by rw [JsSet.mem_ofArray, List.mem_dedup])
  rw [JsSet.size, hperm.length_eq]
  constructor
  · intro h
    have := (List.dedup_sublist dice).eq_of_length h
    exact List.dedup_eq_self.1 this
  · intro h
    rw [List.dedup_eq_self.2 h]

/-! ## The frequency map -/

theorem JsMap.get_map (s : List Int) (g : Int → Nat) (d : Int) :
    JsMap.get (s.map (fun v => (v, g v))) d = if d ∈ s then some (g d) else none := by
  induction s with
  | nil => simp [JsMap.get]
  | cons x xs ih =>
    by_cases hx : x = d
    · subst hx; simp [JsMap.get]
    · have hx2 : ¬ d = x := fun h => hx h.symm
      simp only [JsMap.get, List.map_cons, List.mem_cons] at ih ⊢
      rw [List.find?_cons_of_neg _ (by simpa using hx), ih]
      simp [hx2]

theorem JsMap.any_map (s : List Int) (g : Int → Nat) (d : Int) :
    (s.map (fun v => (v, g v))).any (fun e => e.1 == d) = decide (d ∈ s) := by
  induction s with
  | nil => simp
  | cons x xs ih =>
    simp only [List.map_cons, List.any_cons, ih, List.mem_cons]
    by_cases hx : x = d
    · subst hx; simp
    · have hx2 : ¬ d = x := fun h => hx h.symm
      simp [hx, hx2]

theorem Rule.freqLoop_append (ds : List Int) (d : Int) :
    Rule.freqLoop [] (ds ++ [d]) =
      JsMap.set (Rule.freqLoop [] ds) d (orZero (JsMap.get (Rule.freqLoop [] ds) d) + 1) := by
  simp [Rule.freqLoop, List.foldl_append]

theorem Rule.freqLoop_eq (dice : List Int) :
    Rule.freqLoop [] dice = (JsSet.ofArray dice).map (fun v => (v, dice.count v)) := by
  induction dice using List.reverseRecOn with
  | nil => simp [Rule.freqLoop, JsSet.ofArray]
  | append_singleton ds d ih =>
    rw [Rule.freqLoop_append, ih, JsMap.get_map, JsMap.set, JsMap.any_map,
      JsSet.ofArray_append, JsSet.add]
    by_cases hd : d ∈ JsSet.ofArray ds
    · rw [if_pos hd, if_pos hd, if_pos (by simpa using hd), List.map_map]
      apply List.map_congr_left
      intro x _
      by_cases hx : x = d
      · subst hx; simp only [orZero]; split <;> simp_all [List.count_append]
      · have hx2 : ¬ d = x := fun h => hx h.symm
        simp [hx, hx2, List.count_append]
    · have hd2 : d ∉ ds := fun h => hd ((JsSet.mem_ofArray ds d).2 h)
      rw [if_neg hd, if_neg hd, if_neg (by simpa using hd), List.map_append]
      congr 1
      · apply List.map_congr_left
        intro x hx
        have hxd : ¬ d = x := fun h => hd (h ▸ hx)
        simp [List.count_append, List.count_singleton, hxd]
      · simp [orZero, List.count_append, List.count_eq_zero_of_not_mem hd2]

theorem Rule.freq_eq (dice : List Int) :
    Rule.freq dice = (JsSet.ofArray dice).map (fun v => dice.count v) := by
  simp [Rule.freq, JsMap.values, Rule.freqLoop_eq, List.map_map, Function.comp_def]

theorem Rule.mem_freq (dice : List Int) (c : Nat) :
    c ∈ Rule.freq dice ↔ ∃ v ∈ dice, dice.count v = c := by
  simp [Rule.freq_eq, JsSet.mem_ofArray]

theorem Rule.freq_head (dice : List Int) :
    (Rule.freq dice)[0]? = dice.head?.map (fun v => dice.count v) := by
  rw [Rule.freq_eq, ← List.head?_eq_getElem?, List.head?_map, JsSet.head_ofArray]

/-! ## The rule classes on non-empty rolls -/

theorem ne_nil_of_length_five (dice : List Int) (hlen : dice.length = 5) : dice ≠ [] := by
  intro h; rw [h] at hlen; simp at hlen

theorem sumDistro_any_freq (count : Nat) (dice : List Int) :
    (Rule.freq dice).any (fun c => decide (c ≥ count)) = true ↔
      ∃ v ∈ dice, count ≤ dice.count v := by
  rw [List.any_eq_true]
  constructor
  · rintro ⟨c, hc, hge⟩
    obtain ⟨v, hv, rfl⟩ := (Rule.mem_freq dice c).1 hc
    exact ⟨v, hv, by simpa using hge⟩
  · rintro ⟨v, hv, hge⟩
    exact ⟨dice.count v, (Rule.mem_freq dice _).2 ⟨v, hv, rfl⟩, by simpa using hge⟩

theorem sumDistro_pos (count : Nat) (dice : List Int) (hne : dice ≠ [])
    (h : ∃ v ∈ dice, count ≤ dice.count v) : SumDistro.evalRoll count dice = some dice.sum := by
  rw [SumDistro.evalRoll, if_pos ((sumDistro_any_freq count dice).2 h), Rule.sum_eq dice hne]

theorem sumDistro_neg (count : Nat) (dice : List Int)
    (h : ¬ ∃ v ∈ dice, count ≤ dice.count v) : SumDistro.evalRoll count dice = some 0 := by
  rw [SumDistro.evalRoll, if_neg (fun hany => h ((sumDistro_any_freq count dice).1 hany))]

theorem sumDistro_cases (count : Nat) (dice : List Int) (hne : dice ≠ []) :
    SumDistro.evalRoll count dice = some dice.sum ∨ SumDistro.evalRoll count dice = some 0 := by
  by_cases h : ∃ v ∈ dice, count ≤ dice.count v
  · exact Or.inl (sumDistro_pos count dice hne h)
  · exact Or.inr (sumDistro_neg count dice h)

theorem fullHouse_cases (score : Int) (dice : List Int) :
    FullHouse.evalRoll score dice = some 0 ∨ FullHouse.evalRoll score dice = some score := by
  simp only [FullHouse.evalRoll]
  split
  · exact Or.inr rfl
  · exact Or.inl rfl

theorem smallStraight_cases (score : Int) (dice : List Int) :
    SmallStraight.evalRoll score dice = some 0 ∨
      SmallStraight.evalRoll score dice = some score := by
  simp only [SmallStraight.evalRoll]
  split
  · exact Or.inr rfl
  · split
    · exact Or.inr rfl
    · exact Or.inl rfl

theorem largeStraight_cases (score : Int) (dice : List Int) :
    LargeStraight.evalRoll score dice = some 0 ∨
      LargeStraight.evalRoll score dice = some score := by
  simp only [LargeStraight.evalRoll]
  split
  · exact Or.inr rfl
  · exact Or.inl rfl

theorem yahtzee_cases (score : Int) (dice : List Int) :
    Yahtzee.evalRoll score dice = some 0 ∨ Yahtzee.evalRoll score dice = some score := by
  simp only [Yahtzee.evalRoll]
  split
  · exact Or.inr rfl
  · exact Or.inl rfl

theorem sum_bounds (dice : List Int) (hrange : ∀ d ∈ dice, 1 ≤ d ∧ d ≤ 6) :
    (dice.length : Int) ≤ dice.sum ∧ dice.sum ≤ 6 * dice.length := by
  induction dice with
  | nil => simp
  | cons x xs ih =>
    have hx := hrange x (List.mem_cons_self x xs)
    have hxs := ih (fun d hd => hrange d (List.mem_cons_of_mem x hd))
    simp only [List.sum_cons, List.length_cons, Nat.cast_add, Nat.cast_one]
    omega

theorem totalOneNumber_bounds (val : Int) (dice : List Int) (hlen : dice.length = 5)
    (hval : 0 ≤ val) :
    ∃ s : Int, TotalOneNumber.evalRoll val dice = some s ∧ 0 ≤ s ∧ s ≤ 5 * val := by
  refine ⟨val * (Rule.count dice val : Int), rfl, ?_, ?_⟩
  · exact mul_nonneg hval (Int.natCast_nonneg _)
  · have hk : dice.count val ≤ 5 := hlen ▸ List.count_le_length val dice
    rw [Rule.count_eq]
    have hk2 : ((dice.count val : Nat) : Int) ≤ 5 := by exact_mod_cast hk
    nlinarith

theorem sumDistro_bounds (count : Nat) (dice : List Int) (hlen : dice.length = 5)
    (hrange : ∀ d ∈ dice, 1 ≤ d ∧ d ≤ 6) :
    ∃ s : Int, SumDistro.evalRoll count dice = some s ∧ 0 ≤ s ∧ s ≤ 30 := by
  have hs := sum_bounds dice hrange
  rw [hlen] at hs
  rcases sumDistro_cases count dice (ne_nil_of_length_five dice hlen) with h | h
  · exact ⟨dice.sum, h, by omega, by omega⟩
  · exact ⟨0, h, by omega, by omega⟩

theorem fullHouse_test (dice : List Int) :
    ((Rule.freq dice).contains 2 && (Rule.freq dice).contains 3) = true ↔
      ∃ a b, a ≠ b ∧ dice.count a = 3 ∧ dice.count b = 2 := by
  have hc : ∀ c : Nat, (Rule.freq dice).contains c = true ↔ c ∈ Rule.freq dice := by
    intro c; simp [List.contains]
  rw [Bool.and_eq_true, hc, hc, Rule.mem_freq, Rule.mem_freq]
  constructor
  · rintro ⟨⟨b, _, hb⟩, ⟨a, _, ha⟩⟩
    refine ⟨a, b, ?_, ha, hb⟩
    intro hab
    rw [hab, hb] at ha
    omega
  · rintro ⟨a, b, _, ha, hb⟩
    exact ⟨⟨b, List.count_pos_iff.1 (by omega), hb⟩, ⟨a, List.count_pos_iff.1 (by omega), ha⟩⟩

theorem fullHouse_pos (score : Int) (dice : List Int)
    (h : ∃ a b, a ≠ b ∧ dice.count a = 3 ∧ dice.count b = 2) :
    FullHouse.evalRoll score dice = some score := by
  simp only [FullHouse.evalRoll]
  rw [if_pos ((fullHouse_test dice).2 h)]

theorem fullHouse_neg (score : Int) (dice : List Int)
    (h : ¬ ∃ a b, a ≠ b ∧ dice.count a = 3 ∧ dice.count b = 2) :
    FullHouse.evalRoll score dice = some 0 := by
  simp only [FullHouse.evalRoll]
  rw [if_neg (fun ht => h ((fullHouse_test dice).1 ht))]

theorem yahtzee_test (dice : List Int) (hlen : dice.length = 5) :
    (Rule.freq dice)[0]? = some 5 ↔ ∀ x ∈ dice, ∀ y ∈ dice, x = y := by
  rw [Rule.freq_head]
  cases dice with
  | nil => simp at hlen
  | cons d ds =>
    rw [List.head?_cons, Option.map_some', Option.some_inj, ← hlen, List.count_eq_length]
    constructor
    · intro h x hx y hy
      rw [← h x hx, ← h y hy]
    · intro h b hb
      exact h d (List.mem_cons_self d ds) b hb

theorem yahtzee_pos (score : Int) (dice : List Int) (hlen : dice.length = 5)
    (h : ∀ x ∈ dice, ∀ y ∈ dice, x = y) : Yahtzee.evalRoll score dice = some score := by
  rw [Yahtzee.evalRoll, if_pos ((yahtzee_test dice hlen).2 h)]

theorem yahtzee_neg (score : Int) (dice : List Int) (hlen : dice.length = 5)
    (h : ¬ ∀ x ∈ dice, ∀ y ∈ dice, x = y) : Yahtzee.evalRoll score dice = some 0 := by
  rw [Yahtzee.evalRoll, if_neg (fun ht => h ((yahtzee_test dice hlen).1 ht))]

theorem fullHouse_of_all_same (score : Int) (dice : List Int) (hlen : dice.length = 5)
    (h : ∀ x ∈ dice, ∀ y ∈ dice, x = y) : FullHouse.evalRoll score dice = some 0 := by
  apply fullHouse_neg
  rintro ⟨a, b, _, _, hb⟩
  have hbmem : b ∈ dice := List.count_pos_iff.1 (by omega)
  have hall : dice.count b = dice.length := List.count_eq_length.2 (fun y hy => h b hbmem y hy)
  omega

theorem smallStraight_test (score : Int) (dice : List Int) :
    SmallStraight.evalRoll score dice =
      if (1 ∈ dice ∧ 2 ∈ dice ∧ 3 ∈ dice ∧ 4 ∈ dice) ∨ (2 ∈ dice ∧ 3 ∈ dice ∧ 4 ∈ dice ∧ 5 ∈ dice) ∨
          (3 ∈ dice ∧ 4 ∈ dice ∧ 5 ∈ dice ∧ 6 ∈ dice) then some score else some 0 := by
  simp only [SmallStraight.evalRoll, JsSet.has_ofArray, Bool.and_eq_true, Bool.or_eq_true,
    decide_eq_true_eq]
  by_cases h1 : (1 : Int) ∈ dice <;> by_cases h2 : (2 : Int) ∈ dice <;>
    by_cases h3 : (3 : Int) ∈ dice <;> by_cases h4 : (4 : Int) ∈ dice <;>
    by_cases h5 : (5 : Int) ∈ dice <;> by_cases h6 : (6 : Int) ∈ dice <;>
    simp [h1, h2, h3, h4, h5, h6]

theorem perm_of_nodup_subset (dice target : List Int) (hnd : dice.Nodup)
    (hsub : dice ⊆ target) (hlen : target.length ≤ dice.length) : dice.Perm target :=
  (hnd.subperm hsub).perm_of_length_le hlen

theorem largeStraight_test (dice : List Int) (hlen : dice.length = 5)
    (hrange : ∀ d ∈ dice, 1 ≤ d ∧ d ≤ 6) :
    (decide (JsSet.size (JsSet.ofArray dice) = 5) &&
        (!JsSet.has (JsSet.ofArray dice) 1 || !JsSet.has (JsSet.ofArray dice) 6)) = true ↔
      dice.Perm [1, 2, 3, 4, 5] ∨ dice.Perm [2, 3, 4, 5, 6] := by
  have hsize : JsSet.size (JsSet.ofArray dice) = 5 ↔ dice.Nodup := by
    rw [← hlen]; exact JsSet.size_ofArray dice
  simp only [Bool.and_eq_true, Bool.or_eq_true, decide_eq_true_eq, hsize, JsSet.has_ofArray,
    Bool.not_eq_true', decide_eq_false_iff_not]
  constructor
  · rintro ⟨hnd, h1 | h6⟩
    · right
      apply perm_of_nodup_subset dice _ hnd _ (by simp [hlen])
      intro x hx
      have hx1 : x ≠ 1 := fun h => h1 (h ▸ hx)
      have := hrange x hx
      have hcases : x = 2 ∨ x = 3 ∨ x = 4 ∨ x = 5 ∨ x = 6 := by omega
      simpa using hcases
    · left
      apply perm_of_nodup_subset dice _ hnd _ (by simp [hlen])
      intro x hx
      have hx6 : x ≠ 6 := fun h => h6 (h ▸ hx)
      have := hrange x hx
      have hcases : x = 1 ∨ x = 2 ∨ x = 3 ∨ x = 4 ∨ x = 5 := by omega
      simpa using hcases
  · rintro (hp | hp)
    · exact ⟨hp.nodup_iff.2 (by decide), Or.inr (fun h => absurd (hp.mem_iff.1 h) (by decide))⟩
    · exact ⟨hp.nodup_iff.2 (by decide), Or.inl (fun h => absurd (hp.mem_iff.1 h) (by decide))⟩

/-! ## The claims -/

/-- C1: on every roll of exactly five dice, each showing 1 to 6, `evalRoll` of each
of the thirteen catalogue rules returns a score and does not throw; `Rule.sum`
itself returns a number on such a roll, so its throwing case (the empty array) is
not reached. -/
theorem evalRoll_total (dice : List Int) (hlen : dice.length = 5)
    (hrange : ∀ d ∈ dice, 1 ≤ d ∧ d ≤ 6) :
    (∃ t : Int, Rule.sum dice = some t) ∧
      ∀ r ∈ catalogue, ∃ s : Int, r.evalRoll dice = some s := by
  have hne := ne_nil_of_length_five dice hlen
  refine ⟨⟨dice.sum, Rule.sum_eq dice hne⟩, ?_⟩
  intro r hr
  have hsum : ∀ n : Nat, ∃ s : Int, SumDistro.evalRoll n dice = some s := fun n =>
    (sumDistro_bounds n dice hlen hrange).imp (fun _ h => h.1)
  simp only [catalogue, List.mem_cons, List.mem_singleton, List.not_mem_nil, or_false] at hr
  rcases hr with rfl | rfl | rfl | rfl | rfl | rfl | rfl | rfl | rfl | rfl | rfl | rfl | rfl
  · exact ⟨_, rfl⟩
  · exact ⟨_, rfl⟩
  · exact ⟨_, rfl⟩
  · exact ⟨_, rfl⟩
  · exact ⟨_, rfl⟩
  · exact ⟨_, rfl⟩
  · exact hsum 3
  · exact hsum 4
  · rcases fullHouse_cases 25 dice with h | h <;> exact ⟨_, h⟩
  · rcases smallStraight_cases 30 dice with h | h <;> exact ⟨_, h⟩
  · rcases largeStraight_cases 40 dice with h | h <;> exact ⟨_, h⟩
  · rcases yahtzee_cases 50 dice with h | h <;> exact ⟨_, h⟩
  · exact hsum 0

theorem evalRoll_total_witness :
    ([3, 1, 6, 6, 2] : List Int).length = 5 ∧ (∀ d ∈ ([3, 1, 6, 6, 2] : List Int), 1 ≤ d ∧ d ≤ 6) ∧
      ((∃ t : Int, Rule.sum [3, 1, 6, 6, 2] = some t) ∧
        ∀ r ∈ catalogue, ∃ s : Int, r.evalRoll [3, 1, 6, 6, 2] = some s) :=
  ⟨by decide, by decide, evalRoll_total [3, 1, 6, 6, 2] (by decide) (by decide)⟩

/-- C2: on every roll of exactly five dice, each showing 1 to 6, every catalogue
rule returns a score between 0 and the maximum of its category: at most `5 * v`
for the single-value rule with target `v`, at most 30 for `threeOfKind`,
`fourOfKind` and `chance`, and either 0 or the flat score for `fullHouse` (25),
`smallStraight` (30), `largeStraight` (40) and `yahtzee` (50). -/
theorem evalRoll_range (dice : List Int) (hlen : dice.length = 5)
    (hrange : ∀ d ∈ dice, 1 ≤ d ∧ d ≤ 6) :
    (∃ s : Int, ones.evalRoll dice = some s ∧ 0 ≤ s ∧ s ≤ 5 * 1) ∧
    (∃ s : Int, twos.evalRoll dice = some s ∧ 0 ≤ s ∧ s ≤ 5 * 2) ∧
    (∃ s : Int, threes.evalRoll dice = some s ∧ 0 ≤ s ∧ s ≤ 5 * 3) ∧
    (∃ s : Int, fours.evalRoll dice = some s ∧ 0 ≤ s ∧ s ≤ 5 * 4) ∧
    (∃ s : Int, fives.evalRoll dice = some s ∧ 0 ≤ s ∧ s ≤ 5 * 5) ∧
    (∃ s : Int, sixes.evalRoll dice = some s ∧ 0 ≤ s ∧ s ≤ 5 * 6) ∧
    (∃ s : Int, threeOfKind.evalRoll dice = some s ∧ 0 ≤ s ∧ s ≤ 30) ∧
    (∃ s : Int, fourOfKind.evalRoll dice = some s ∧ 0 ≤ s ∧ s ≤ 30) ∧
    (∃ s : Int, chance.evalRoll dice = some s ∧ 0 ≤ s ∧ s ≤ 30) ∧
    (fullHouse.evalRoll dice = some 0 ∨ fullHouse.evalRoll dice = some 25) ∧
    (smallStraight.evalRoll dice = some 0 ∨ smallStraight.evalRoll dice = some 30) ∧
    (largeStraight.evalRoll dice = some 0 ∨ largeStraight.evalRoll dice = some 40) ∧
    (yahtzee.evalRoll dice = some 0 ∨ yahtzee.evalRoll dice = some 50) :=
  ⟨totalOneNumber_bounds 1 dice hlen (by decide),
   totalOneNumber_bounds 2 dice hlen (by decide),
   totalOneNumber_bounds 3 dice hlen (by decide),
   totalOneNumber_bounds 4 dice hlen (by decide),
   totalOneNumber_bounds 5 dice hlen (by decide),
   totalOneNumber_bounds 6 dice hlen (by decide),
   sumDistro_bounds 3 dice hlen hrange,
   sumDistro_bounds 4 dice hlen hrange,
   sumDistro_bounds 0 dice hlen hrange,
   fullHouse_cases 25 dice,
   smallStraight_cases 30 dice,
   largeStraight_cases 40 dice,
   yahtzee_cases 50 dice⟩

theorem evalRoll_range_witness :
    ([6, 6, 6, 6, 6] : List Int).length = 5 ∧ (∀ d ∈ ([6, 6, 6, 6, 6] : List Int), 1 ≤ d ∧ d ≤ 6) ∧
    ((∃ s : Int, ones.evalRoll [6, 6, 6, 6, 6] = some s ∧ 0 ≤ s ∧ s ≤ 5 * 1) ∧
    (∃ s : Int, twos.evalRoll [6, 6, 6, 6, 6] = some s ∧ 0 ≤ s ∧ s ≤ 5 * 2) ∧
    (∃ s : Int, threes.evalRoll [6, 6, 6, 6, 6] = some s ∧ 0 ≤ s ∧ s ≤ 5 * 3) ∧
    (∃ s : Int, fours.evalRoll [6, 6, 6, 6, 6] = some s ∧ 0 ≤ s ∧ s ≤ 5 * 4) ∧
    (∃ s : Int, fives.evalRoll [6, 6, 6, 6, 6] = some s ∧ 0 ≤ s ∧ s ≤ 5 * 5) ∧
    (∃ s : Int, sixes.evalRoll [6, 6, 6, 6, 6] = some s ∧ 0 ≤ s ∧ s ≤ 5 * 6) ∧
    (∃ s : Int, threeOfKind.evalRoll [6, 6, 6, 6, 6] = some s ∧ 0 ≤ s ∧ s ≤ 30) ∧
    (∃ s : Int, fourOfKind.evalRoll [6, 6, 6, 6, 6] = some s ∧ 0 ≤ s ∧ s ≤ 30) ∧
    (∃ s : Int, chance.evalRoll [6, 6, 6, 6, 6] = some s ∧ 0 ≤ s ∧ s ≤ 30) ∧
    (fullHouse.evalRoll [6, 6, 6, 6, 6] = some 0 ∨ fullHouse.evalRoll [6, 6, 6, 6, 6] = some 25) ∧
    (smallStraight.evalRoll [6, 6, 6, 6, 6] = some 0 ∨ smallStraight.evalRoll [6, 6, 6, 6, 6] = some 30) ∧
    (largeStraight.evalRoll [6, 6, 6, 6, 6] = some 0 ∨ largeStraight.evalRoll [6, 6, 6, 6, 6] = some 40) ∧
    (yahtzee.evalRoll [6, 6, 6, 6, 6] = some 0 ∨ yahtzee.evalRoll [6, 6, 6, 6, 6] = some 50)) :=
  ⟨by decide, by decide, evalRoll_range [6, 6, 6, 6, 6] (by decide) (by decide)⟩

/-- C3: on every roll of five dice and for every target `v` from 1 to 6, the
single-value rule built with `val = v` returns `v * k`, where `k` is the number
of dice equal to `v` and `k ≤ 5`, so the score is a multiple of `v`; `ones`,
`twos`, `threes`, `fours`, `fives` and `sixes` are these rules for 1 to 6. -/
theorem totalOneNumber_score (dice : List Int) (hlen : dice.length = 5) :
    (∀ (v : Int) (text : String), 1 ≤ v → v ≤ 6 →
      (TotalOneNumber v text).evalRoll dice = some (v * (dice.count v : Int)) ∧
        dice.count v ≤ 5 ∧
        ∀ s : Int, (TotalOneNumber v text).evalRoll dice = some s → v ∣ s) ∧
    ones.evalRoll dice = some (1 * (dice.count 1 : Int)) ∧
    twos.evalRoll dice = some (2 * (dice.count 2 : Int)) ∧
    threes.evalRoll dice = some (3 * (dice.count 3 : Int)) ∧
    fours.evalRoll dice = some (4 * (dice.count 4 : Int)) ∧
    fives.evalRoll dice = some (5 * (dice.count 5 : Int)) ∧
    sixes.evalRoll dice = some (6 * (dice.count 6 : Int)) := by
  have key : ∀ (v : Int) (text : String),
      (TotalOneNumber v text).evalRoll dice = some (v * (dice.count v : Int)) := by
    intro v text
    simp only [TotalOneNumber, TotalOneNumber.evalRoll, Rule.count_eq]
  refine ⟨?_, key 1 _, key 2 _, key 3 _, key 4 _, key 5 _, key 6 _⟩
  intro v text _ _
  refine ⟨key v text, hlen ▸ List.count_le_length v dice, ?_⟩
  intro s hs
  rw [key v text] at hs
  exact (Option.some.inj hs) ▸ Dvd.intro _ rfl

theorem totalOneNumber_score_witness :
    ([4, 2, 4, 6, 4] : List Int).length = 5 ∧
    ((∀ (v : Int) (text : String), 1 ≤ v → v ≤ 6 →
      (TotalOneNumber v text).evalRoll [4, 2, 4, 6, 4] =
          some (v * (([4, 2, 4, 6, 4] : List Int).count v : Int)) ∧
        ([4, 2, 4, 6, 4] : List Int).count v ≤ 5 ∧
        ∀ s : Int, (TotalOneNumber v text).evalRoll [4, 2, 4, 6, 4] = some s → v ∣ s) ∧
    ones.evalRoll [4, 2, 4, 6, 4] = some (1 * (([4, 2, 4, 6, 4] : List Int).count 1 : Int)) ∧
    twos.evalRoll [4, 2, 4, 6, 4] = some (2 * (([4, 2, 4, 6, 4] : List Int).count 2 : Int)) ∧
    threes.evalRoll [4, 2, 4, 6, 4] = some (3 * (([4, 2, 4, 6, 4] : List Int).count 3 : Int)) ∧
    fours.evalRoll [4, 2, 4, 6, 4] = some (4 * (([4, 2, 4, 6, 4] : List Int).count 4 : Int)) ∧
    fives.evalRoll [4, 2, 4, 6, 4] = some (5 * (([4, 2, 4, 6, 4] : List Int).count 5 : Int)) ∧
    sixes.evalRoll [4, 2, 4, 6, 4] = some (6 * (([4, 2, 4, 6, 4] : List Int).count 6 : Int))) :=
  ⟨by decide, totalOneNumber_score [4, 2, 4, 6, 4] (by decide)⟩

/-- C4: on every roll of five dice, each showing 1 to 6, `threeOfKind.evalRoll`
returns the sum of all five dice when some value shows on at least 3 dice and 0
otherwise, and `fourOfKind.evalRoll` returns the sum of all five dice when some
value shows on at least 4 dice and 0 otherwise. -/
theorem ofKind_score (dice : List Int) (hlen : dice.length = 5)
    (_hrange : ∀ d ∈ dice, 1 ≤ d ∧ d ≤ 6) :
    ((∃ v, 3 ≤ dice.count v) → threeOfKind.evalRoll dice = some dice.sum) ∧
    ((¬ ∃ v, 3 ≤ dice.count v) → threeOfKind.evalRoll dice = some 0) ∧
    ((∃ v, 4 ≤ dice.count v) → fourOfKind.evalRoll dice = some dice.sum) ∧
    ((¬ ∃ v, 4 ≤ dice.count v) → fourOfKind.evalRoll dice = some 0) := by
  have hne := ne_nil_of_length_five dice hlen
  have hmem : ∀ n : Nat, 0 < n → ((∃ v, n ≤ dice.count v) ↔ ∃ v ∈ dice, n ≤ dice.count v) := by
    intro n hn
    constructor
    · rintro ⟨v, hv⟩
      exact ⟨v, List.count_pos_iff.1 (by omega), hv⟩
    · rintro ⟨v, _, hv⟩
      exact ⟨v, hv⟩
  refine ⟨?_, ?_, ?_, ?_⟩
  · intro h
    exact sumDistro_pos 3 dice hne ((hmem 3 (by decide)).1 h)
  · intro h
    exact sumDistro_neg 3 dice (fun h2 => h ((hmem 3 (by decide)).2 h2))
  · intro h
    exact sumDistro_pos 4 dice hne ((hmem 4 (by decide)).1 h)
  · intro h
    exact sumDistro_neg 4 dice (fun h2 => h ((hmem 4 (by decide)).2 h2))

theorem ofKind_score_witness :
    ([2, 2, 2, 6, 6] : List Int).length = 5 ∧ (∀ d ∈ ([2, 2, 2, 6, 6] : List Int), 1 ≤ d ∧ d ≤ 6) ∧
      threeOfKind.evalRoll [2, 2, 2, 6, 6] = some 18 ∧
      fourOfKind.evalRoll [2, 2, 2, 6, 6] = some 0 ∧
    ([2, 2, 2, 2, 3] : List Int).length = 5 ∧ (∀ d ∈ ([2, 2, 2, 2, 3] : List Int), 1 ≤ d ∧ d ≤ 6) ∧
      threeOfKind.evalRoll [2, 2, 2, 2, 3] = some 11 ∧
      fourOfKind.evalRoll [2, 2, 2, 2, 3] = some 11 :=
  ⟨by decide, by decide,
   (ofKind_score [2, 2, 2, 6, 6] (by decide) (by decide)).1 ⟨2, by decide⟩,
   (ofKind_score [2, 2, 2, 6, 6] (by decide) (by decide)).2.2.2
     (by
      rintro ⟨v, hv⟩
      have h2 : ([2, 2, 2, 6, 6] : List Int).count v ≤ 3 := by
        simp only [List.count_cons, List.count_nil, beq_iff_eq]
        split_ifs <;> omega
      omega),
   by decide, by decide,
   (ofKind_score [2, 2, 2, 2, 3] (by decide) (by decide)).1 ⟨2, by decide⟩,
   (ofKind_score [2, 2, 2, 2, 3] (by decide) (by decide)).2.2.1 ⟨2, by decide⟩⟩

/-- C5: on every roll of five dice, whatever values from 1 to 6 they show and
however often a value repeats, `chance.evalRoll` (the threshold-count rule with
`count = 0`) returns the arithmetic sum of the five dice. -/
theorem chance_score (dice : List Int) (hlen : dice.length = 5)
    (_hrange : ∀ d ∈ dice, 1 ≤ d ∧ d ≤ 6) :
    chance.evalRoll dice = some dice.sum := by
  have hne := ne_nil_of_length_five dice hlen
  obtain ⟨d, hd⟩ := List.exists_mem_of_ne_nil dice hne
  exact sumDistro_pos 0 dice hne ⟨d, hd, Nat.zero_le _⟩

theorem chance_score_witness :
    ([1, 6, 4, 2, 6] : List Int).length = 5 ∧ (∀ d ∈ ([1, 6, 4, 2, 6] : List Int), 1 ≤ d ∧ d ≤ 6) ∧
      chance.evalRoll [1, 6, 4, 2, 6] = some 19 :=
  ⟨by decide, by decide, chance_score [1, 6, 4, 2, 6] (by decide) (by decide)⟩

/-- C6: on every roll of five dice, `fullHouse.evalRoll` returns 25 when one value
shows on exactly three dice and a different value shows on exactly two dice, and
returns 0 otherwise. -/
theorem fullHouse_score (dice : List Int) (_hlen : dice.length = 5) :
    ((∃ a b, a ≠ b ∧ dice.count a = 3 ∧ dice.count b = 2) →
      fullHouse.evalRoll dice = some 25) ∧
    ((¬ ∃ a b, a ≠ b ∧ dice.count a = 3 ∧ dice.count b = 2) →
      fullHouse.evalRoll dice = some 0) :=
  ⟨fun h => fullHouse_pos 25 dice h, fun h => fullHouse_neg 25 dice h⟩

theorem fullHouse_score_witness :
    ([5, 3, 5, 3, 3] : List Int).length = 5 ∧ fullHouse.evalRoll [5, 3, 5, 3, 3] = some 25 :=
  ⟨by decide, (fullHouse_score [5, 3, 5, 3, 3] (by decide)).1 ⟨3, 5, by decide, by decide, by decide⟩⟩

/-- C7: on every roll of five dice that all show the same value, `fullHouse.evalRoll`
returns 0; and on every roll of five dice at least one of `fullHouse.evalRoll` and
`yahtzee.evalRoll` returns 0, so no roll scores non-zero under both. -/
theorem fullHouse_yahtzee_exclusive (dice : List Int) (hlen : dice.length = 5) :
    ((∀ x ∈ dice, ∀ y ∈ dice, x = y) → fullHouse.evalRoll dice = some 0) ∧
    (fullHouse.evalRoll dice = some 0 ∨ yahtzee.evalRoll dice = some 0) := by
  refine ⟨fun h => fullHouse_of_all_same 25 dice hlen h, ?_⟩
  by_cases h : ∀ x ∈ dice, ∀ y ∈ dice, x = y
  · exact Or.inl (fullHouse_of_all_same 25 dice hlen h)
  · exact Or.inr (yahtzee_neg 50 dice hlen h)

theorem fullHouse_yahtzee_exclusive_witness :
    ([3, 3, 3, 3, 3] : List Int).length = 5 ∧ fullHouse.evalRoll [3, 3, 3, 3, 3] = some 0 :=
  ⟨by decide, (fullHouse_yahtzee_exclusive [3, 3, 3, 3, 3] (by decide)).1 (by decide)⟩

/-- C8: on every roll of five dice, each showing 1 to 6, `smallStraight.evalRoll`
returns 30 if and only if the roll holds four consecutive values (all of 1, 2, 3, 4
or all of 2, 3, 4, 5 or all of 3, 4, 5, 6), whatever the fifth die is, and returns
0 otherwise. -/
theorem smallStraight_score (dice : List Int) (_hlen : dice.length = 5)
    (_hrange : ∀ d ∈ dice, 1 ≤ d ∧ d ≤ 6) :
    (smallStraight.evalRoll dice = some 30 ↔
      (1 ∈ dice ∧ 2 ∈ dice ∧ 3 ∈ dice ∧ 4 ∈ dice) ∨ (2 ∈ dice ∧ 3 ∈ dice ∧ 4 ∈ dice ∧ 5 ∈ dice) ∨
        (3 ∈ dice ∧ 4 ∈ dice ∧ 5 ∈ dice ∧ 6 ∈ dice)) ∧
    (¬ ((1 ∈ dice ∧ 2 ∈ dice ∧ 3 ∈ dice ∧ 4 ∈ dice) ∨ (2 ∈ dice ∧ 3 ∈ dice ∧ 4 ∈ dice ∧ 5 ∈ dice) ∨
        (3 ∈ dice ∧ 4 ∈ dice ∧ 5 ∈ dice ∧ 6 ∈ dice)) →
      smallStraight.evalRoll dice = some 0) := by
  have h := smallStraight_test 30 dice
  change smallStraight.evalRoll dice = _ at h
  by_cases hrun : (1 ∈ dice ∧ 2 ∈ dice ∧ 3 ∈ dice ∧ 4 ∈ dice) ∨
      (2 ∈ dice ∧ 3 ∈ dice ∧ 4 ∈ dice ∧ 5 ∈ dice) ∨ (3 ∈ dice ∧ 4 ∈ dice ∧ 5 ∈ dice ∧ 6 ∈ dice)
  · rw [if_pos hrun] at h
    exact ⟨⟨fun _ => hrun, fun _ => h⟩, fun hn => absurd hrun hn⟩
  · rw [if_neg hrun] at h
    refine ⟨⟨fun h30 => ?_, fun hr => absurd hr hrun⟩, fun _ => h⟩
    rw [h] at h30
    exact absurd (Option.some.inj h30) (by decide)

theorem smallStraight_score_witness :
    ([1, 2, 3, 4, 6] : List Int).length = 5 ∧ (∀ d ∈ ([1, 2, 3, 4, 6] : List Int), 1 ≤ d ∧ d ≤ 6) ∧
      smallStraight.evalRoll [1, 2, 3, 4, 6] = some 30 ∧
    ([1, 2, 3, 4, 4] : List Int).length = 5 ∧ (∀ d ∈ ([1, 2, 3, 4, 4] : List Int), 1 ≤ d ∧ d ≤ 6) ∧
      smallStraight.evalRoll [1, 2, 3, 4, 4] = some 30 ∧
    ([1, 2, 2, 4, 5] : List Int).length = 5 ∧ (∀ d ∈ ([1, 2, 2, 4, 5] : List Int), 1 ≤ d ∧ d ≤ 6) ∧
      smallStraight.evalRoll [1, 2, 2, 4, 5] = some 0 :=
  ⟨by decide, by decide,
   (smallStraight_score [1, 2, 3, 4, 6] (by decide) (by decide)).1.2 (by decide),
   by decide, by decide,
   (smallStraight_score [1, 2, 3, 4, 4] (by decide) (by decide)).1.2 (by decide),
   by decide, by decide,
   (smallStraight_score [1, 2, 2, 4, 5] (by decide) (by decide)).2 (by decide)⟩

/-- C9: on every roll of five dice, each showing 1 to 6, `largeStraight.evalRoll`
returns 40 if and only if the dice are five consecutive values, that is the roll
is a reordering of 1, 2, 3, 4, 5 or of 2, 3, 4, 5, 6, and returns 0 otherwise. -/
theorem largeStraight_score (dice : List Int) (hlen : dice.length = 5)
    (hrange : ∀ d ∈ dice, 1 ≤ d ∧ d ≤ 6) :
    (largeStraight.evalRoll dice = some 40 ↔
      dice.Perm [1, 2, 3, 4, 5] ∨ dice.Perm [2, 3, 4, 5, 6]) ∧
    (¬ (dice.Perm [1, 2, 3, 4, 5] ∨ dice.Perm [2, 3, 4, 5, 6]) →
      largeStraight.evalRoll dice = some 0) := by
  have htest := largeStraight_test dice hlen hrange
  have h : largeStraight.evalRoll dice =
      if (decide (JsSet.size (JsSet.ofArray dice) = 5) &&
        (!JsSet.has (JsSet.ofArray dice) 1 || !JsSet.has (JsSet.ofArray dice) 6)) = true
      then some 40 else some 0 := rfl
  by_cases hrun : dice.Perm [1, 2, 3, 4, 5] ∨ dice.Perm [2, 3, 4, 5, 6]
  · rw [if_pos (htest.2 hrun)] at h
    exact ⟨⟨fun _ => hrun, fun _ => h⟩, fun hn => absurd hrun hn⟩
  · rw [if_neg (fun ht => hrun (htest.1 ht))] at h
    refine ⟨⟨fun h40 => ?_, fun hr => absurd hr hrun⟩, fun _ => h⟩
    rw [h] at h40
    exact absurd (Option.some.inj h40) (by decide)

theorem largeStraight_score_witness :
    ([2, 3, 4, 5, 6] : List Int).length = 5 ∧ (∀ d ∈ ([2, 3, 4, 5, 6] : List Int), 1 ≤ d ∧ d ≤ 6) ∧
      largeStraight.evalRoll [2, 3, 4, 5, 6] = some 40 ∧
    ([1, 2, 3, 5, 6] : List Int).length = 5 ∧ (∀ d ∈ ([1, 2, 3, 5, 6] : List Int), 1 ≤ d ∧ d ≤ 6) ∧
      largeStraight.evalRoll [1, 2, 3, 5, 6] = some 0 ∧
    ([1, 2, 3, 4, 6] : List Int).length = 5 ∧ (∀ d ∈ ([1, 2, 3, 4, 6] : List Int), 1 ≤ d ∧ d ≤ 6) ∧
      largeStraight.evalRoll [1, 2, 3, 4, 6] = some 0 :=
  ⟨by decide, by decide,
   (largeStraight_score [2, 3, 4, 5, 6] (by decide) (by decide)).1.2
     (Or.inr (List.Perm.refl _)),
   by decide, by decide,
   (largeStraight_score [1, 2, 3, 5, 6] (by decide) (by decide)).2
     (by
      rintro (hp | hp)
      · exact absurd (hp.mem_iff.1 (by decide : (6 : Int) ∈ [1, 2, 3, 5, 6])) (by decide)
      · exact absurd (hp.mem_iff.1 (by decide : (1 : Int) ∈ [1, 2, 3, 5, 6])) (by decide)),
   by decide, by decide,
   (largeStraight_score [1, 2, 3, 4, 6] (by decide) (by decide)).2
     (by
      rintro (hp | hp)
      · exact absurd (hp.mem_iff.1 (by decide : (6 : Int) ∈ [1, 2, 3, 4, 6])) (by decide)
      · exact absurd (hp.mem_iff.1 (by decide : (1 : Int) ∈ [1, 2, 3, 4, 6])) (by decide))⟩

/-- C10: on every roll of exactly five dice, `yahtzee.evalRoll` returns 50 if and
only if all five dice show the same value, and returns 0 otherwise. -/
theorem yahtzee_score (dice : List Int) (hlen : dice.length = 5) :
    (yahtzee.evalRoll dice = some 50 ↔ ∀ x ∈ dice, ∀ y ∈ dice, x = y) ∧
    ((¬ ∀ x ∈ dice, ∀ y ∈ dice, x = y) → yahtzee.evalRoll dice = some 0) := by
  refine ⟨⟨?_, fun h => yahtzee_pos 50 dice hlen h⟩, fun h => yahtzee_neg 50 dice hlen h⟩
  intro h50
  by_contra hne
  have h0 : yahtzee.evalRoll dice = some 0 := yahtzee_neg 50 dice hlen hne
  rw [h0] at h50
  exact absurd (Option.some.inj h50) (by decide)

theorem yahtzee_score_witness :
    ([5, 5, 5, 5, 5] : List Int).length = 5 ∧ yahtzee.evalRoll [5, 5, 5, 5, 5] = some 50 ∧
    ([5, 5, 5, 5, 4] : List Int).length = 5 ∧ yahtzee.evalRoll [5, 5, 5, 5, 4] = some 0 :=
  ⟨by decide, (yahtzee_score [5, 5, 5, 5, 5] (by decide)).1.2 (by decide),
   by decide, (yahtzee_score [5, 5, 5, 5, 4] (by decide)).2 (by decide)⟩

/-! ## Reordering a roll -/

theorem JsSet.size_eq_dedup (dice : List Int) :
    JsSet.size (JsSet.ofArray dice) = dice.dedup.length := by
  have hperm : (JsSet.ofArray dice).Perm dice.dedup :=
    (List.perm_ext_iff_of_nodup (JsSet.nodup_ofArray dice) (List.nodup_dedup dice)).2
      (fun x => by rw [JsSet.mem_ofArray, List.mem_dedup])
  rw [JsSet.size, hperm.length_eq]

theorem Rule.freq_perm_dedup (dice : List Int) :
    (Rule.freq dice).Perm (dice.dedup.map (fun v => dice.count v)) := by
  rw [Rule.freq_eq]
  apply List.Perm.map
  exact (List.perm_ext_iff_of_nodup (JsSet.nodup_ofArray dice) (List.nodup_dedup dice)).2
    (fun x => by rw [JsSet.mem_ofArray, List.mem_dedup])

theorem totalOneNumber_perm (val : Int) (dice other : List Int) (h : dice.Perm other) :
    TotalOneNumber.evalRoll val other = TotalOneNumber.evalRoll val dice := by
  simp only [TotalOneNumber.evalRoll, Rule.count_eq, h.count_eq]

theorem sumDistro_perm (count : Nat) (dice other : List Int) (h : dice.Perm other) :
    SumDistro.evalRoll count other = SumDistro.evalRoll count dice := by
  have hiff : (∃ v ∈ other, count ≤ other.count v) ↔ ∃ v ∈ dice, count ≤ dice.count v := by
    constructor
    · rintro ⟨v, hv, hc⟩
      exact ⟨v, h.mem_iff.2 hv, by rwa [h.count_eq]⟩
    · rintro ⟨v, hv, hc⟩
      exact ⟨v, h.mem_iff.1 hv, by rwa [← h.count_eq]⟩
  by_cases hd : ∃ v ∈ dice, count ≤ dice.count v
  · have hne : dice ≠ [] := by
      obtain ⟨v, hv, _⟩ := hd
      exact List.ne_nil_of_mem hv
    have hne2 : other ≠ [] := fun hnil => hne (List.Perm.eq_nil (hnil ▸ h))
    rw [sumDistro_pos count dice hne hd, sumDistro_pos count other hne2 (hiff.2 hd), h.sum_eq]
  · rw [sumDistro_neg count dice hd, sumDistro_neg count other (fun ho => hd (hiff.1 ho))]

theorem fullHouse_perm (score : Int) (dice other : List Int) (h : dice.Perm other) :
    FullHouse.evalRoll score other = FullHouse.evalRoll score dice := by
  have hiff : (∃ a b, a ≠ b ∧ other.count a = 3 ∧ other.count b = 2) ↔
      ∃ a b, a ≠ b ∧ dice.count a = 3 ∧ dice.count b = 2 := by
    simp only [h.count_eq]
  by_cases hd : ∃ a b, a ≠ b ∧ dice.count a = 3 ∧ dice.count b = 2
  · rw [fullHouse_pos score dice hd, fullHouse_pos score other (hiff.2 hd)]
  · rw [fullHouse_neg score dice hd, fullHouse_neg score other (fun ho => hd (hiff.1 ho))]

theorem smallStraight_perm (score : Int) (dice other : List Int) (h : dice.Perm other) :
    SmallStraight.evalRoll score other = SmallStraight.evalRoll score dice := by
  rw [smallStraight_test, smallStraight_test]
  simp only [h.mem_iff]

theorem largeStraight_perm (score : Int) (dice other : List Int) (h : dice.Perm other) :
    LargeStraight.evalRoll score other = LargeStraight.evalRoll score dice := by
  simp only [LargeStraight.evalRoll, JsSet.size_eq_dedup, JsSet.has_ofArray, h.mem_iff,
    (h.dedup).length_eq]

theorem yahtzee_perm (score : Int) (dice other : List Int) (hlen : dice.length = 5)
    (h : dice.Perm other) : Yahtzee.evalRoll score other = Yahtzee.evalRoll score dice := by
  have hlen2 : other.length = 5 := by rw [← h.length_eq]; exact hlen
  have hiff : (∀ x ∈ other, ∀ y ∈ other, x = y) ↔ ∀ x ∈ dice, ∀ y ∈ dice, x = y := by
    simp only [h.mem_iff]
  by_cases hd : ∀ x ∈ dice, ∀ y ∈ dice, x = y
  · rw [yahtzee_pos score dice hlen hd, yahtzee_pos score other hlen2 (hiff.2 hd)]
  · rw [yahtzee_neg score dice hlen hd, yahtzee_neg score other hlen2 (fun ho => hd (hiff.1 ho))]

theorem Rule.freq_pos (dice : List Int) (c : Nat) (hc : c ∈ Rule.freq dice) : 1 ≤ c := by
  obtain ⟨v, hv, rfl⟩ := (Rule.mem_freq dice c).1 hc
  exact List.count_pos_iff.2 hv

theorem Rule.freq_sum_eq (dice : List Int) : (Rule.freq dice).sum = dice.length := by
  rw [(Rule.freq_perm_dedup dice).sum_eq]
  exact List.sum_map_count_dedup_eq_length dice

theorem Rule.freq_head_count (dice : List Int) :
    (Rule.freq dice)[0]? = some 5 ↔ ∃ d, dice.head? = some d ∧ dice.count d = 5 := by
  rw [Rule.freq_head]
  cases dice with
  | nil => simp
  | cons d ds => simp

theorem Rule.freq_single (dice : List Int) (hlen : dice.length = 5) :
    (Rule.freq dice)[0]? = some 5 ↔ Rule.freq dice = [5] := by
  constructor
  · intro h
    have hsum := Rule.freq_sum_eq dice
    have hpos := Rule.freq_pos dice
    cases hf : Rule.freq dice with
    | nil => rw [hf] at h; simp at h
    | cons c cs =>
      rw [hf] at h hsum hpos
      have hc : c = 5 := by simpa using h
      subst hc
      cases cs with
      | nil => rfl
      | cons e es =>
        have he := hpos e (by simp)
        simp only [List.sum_cons] at hsum
        omega
  · intro h
    rw [h]
    rfl

theorem sum_by_value (dice : List Int) (hrange : ∀ d ∈ dice, 1 ≤ d ∧ d ≤ 6) :
    1 * (dice.count 1 : Int) + 2 * (dice.count 2 : Int) + 3 * (dice.count 3 : Int) +
      4 * (dice.count 4 : Int) + 5 * (dice.count 5 : Int) + 6 * (dice.count 6 : Int) =
      dice.sum := by
  induction dice with
  | nil => simp
  | cons x xs ih =>
    have hx := hrange x (List.mem_cons_self x xs)
    have hxs := ih (fun d hd => hrange d (List.mem_cons_of_mem x hd))
    have hcases : x = 1 ∨ x = 2 ∨ x = 3 ∨ x = 4 ∨ x = 5 ∨ x = 6 := by omega
    rw [List.sum_cons, ← hxs]
    rcases hcases with rfl | rfl | rfl | rfl | rfl | rfl <;>
      simp [List.count_cons] <;> ring

/-- C11: for every roll of exactly five dice, each showing 1 to 6, and every
reordering of it, each of the thirteen catalogue rules returns the same score on
the reordered roll as on the original roll, `yahtzee` (which looks only at the
first frequency entry) included. -/
theorem evalRoll_perm (dice other : List Int) (hlen : dice.length = 5)
    (_hrange : ∀ d ∈ dice, 1 ≤ d ∧ d ≤ 6) (h : dice.Perm other) :
    ∀ r ∈ catalogue, r.evalRoll other = r.evalRoll dice := by
  intro r hr
  simp only [catalogue, List.mem_cons, List.mem_singleton, List.not_mem_nil, or_false] at hr
  rcases hr with rfl | rfl | rfl | rfl | rfl | rfl | rfl | rfl | rfl | rfl | rfl | rfl | rfl
  · exact totalOneNumber_perm 1 dice other h
  · exact totalOneNumber_perm 2 dice other h
  · exact totalOneNumber_perm 3 dice other h
  · exact totalOneNumber_perm 4 dice other h
  · exact totalOneNumber_perm 5 dice other h
  · exact totalOneNumber_perm 6 dice other h
  · exact sumDistro_perm 3 dice other h
  · exact sumDistro_perm 4 dice other h
  · exact fullHouse_perm 25 dice other h
  · exact smallStraight_perm 30 dice other h
  · exact largeStraight_perm 40 dice other h
  · exact yahtzee_perm 50 dice other hlen h
  · exact sumDistro_perm 0 dice other h

theorem evalRoll_perm_witness :
    ([5, 5, 5, 5, 4] : List Int).length = 5 ∧ (∀ d ∈ ([5, 5, 5, 5, 4] : List Int), 1 ≤ d ∧ d ≤ 6) ∧
    ([5, 5, 5, 5, 4] : List Int).Perm [4, 5, 5, 5, 5] ∧
    Rule.freq [5, 5, 5, 5, 4] = [4, 1] ∧ Rule.freq [4, 5, 5, 5, 5] = [1, 4] ∧
    (∀ r ∈ catalogue, r.evalRoll [4, 5, 5, 5, 5] = r.evalRoll [5, 5, 5, 5, 4]) ∧
    ([6, 2, 3, 5, 4] : List Int).length = 5 ∧ (∀ d ∈ ([6, 2, 3, 5, 4] : List Int), 1 ≤ d ∧ d ≤ 6) ∧
    ([6, 2, 3, 5, 4] : List Int).Perm [2, 3, 4, 5, 6] ∧
    (∀ r ∈ catalogue, r.evalRoll [2, 3, 4, 5, 6] = r.evalRoll [6, 2, 3, 5, 4]) :=
  ⟨by decide, by decide, by decide, by decide, by decide,
   evalRoll_perm [5, 5, 5, 5, 4] [4, 5, 5, 5, 5] (by decide) (by decide) (by decide),
   by decide, by decide, by decide,
   evalRoll_perm [6, 2, 3, 5, 4] [2, 3, 4, 5, 6] (by decide) (by decide) (by decide)⟩

/-- C12: for every roll, `Rule.freq` has exactly one entry per distinct value of the
roll, the entry of a value `v` being `Rule.count(roll, v)`, the number of dice
showing `v`: as a multiset it is the multiset of the occurrence counts of the
distinct values, every entry is at least 1, and its length is the number of
distinct values; the roll 2, 2, 2, 5, 5 gives the counts 3 and 2. -/
theorem freq_spec (dice : List Int) :
    (∃ vals : List Int, vals.Nodup ∧ (∀ v, v ∈ vals ↔ v ∈ dice) ∧
      Rule.freq dice = vals.map (fun v => Rule.count dice v)) ∧
    (∀ v, Rule.count dice v = dice.count v) ∧
    (Rule.freq dice).Perm (dice.dedup.map (fun v => dice.count v)) ∧
    (∀ c ∈ Rule.freq dice, 1 ≤ c) ∧
    (Rule.freq dice).length = dice.toFinset.card ∧
    Rule.freq [2, 2, 2, 5, 5] = [3, 2] := by
  refine ⟨⟨JsSet.ofArray dice, JsSet.nodup_ofArray dice, JsSet.mem_ofArray dice, ?_⟩,
    Rule.count_eq dice, Rule.freq_perm_dedup dice, ?_, ?_, by decide⟩
  · rw [Rule.freq_eq]
    exact List.map_congr_left (fun v _ => (Rule.count_eq dice v).symm)
  · intro c hc
    obtain ⟨v, hv, rfl⟩ := (Rule.mem_freq dice c).1 hc
    exact List.count_pos_iff.2 hv
  · rw [(Rule.freq_perm_dedup dice).length_eq, List.length_map, List.card_toFinset]

theorem freq_spec_witness :
    (∃ vals : List Int, vals.Nodup ∧ (∀ v, v ∈ vals ↔ v ∈ ([6, 1, 6, 6, 1] : List Int)) ∧
      Rule.freq [6, 1, 6, 6, 1] = vals.map (fun v => Rule.count [6, 1, 6, 6, 1] v)) ∧
    Rule.freq [6, 1, 6, 6, 1] = [3, 2] :=
  ⟨(freq_spec [6, 1, 6, 6, 1]).1, by decide⟩

/-- C13: for every roll, the entries of `Rule.freq` add up to the number of dice of
the roll, hence to 5 on every roll of five dice. -/
theorem freq_sum (dice : List Int) : (Rule.freq dice).sum = dice.length := by
  rw [(Rule.freq_perm_dedup dice).sum_eq]
  exact List.sum_map_count_dedup_eq_length dice

/-- C14: on every roll whose dice show 1 to 6 (an array, so of fewer than `2^32`
dice), `Rule.sum` returns the arithmetic sum of the dice when the roll is not
empty, and it throws (returns no number) if and only if the roll is empty. -/
theorem sum_spec (dice : List Int) (_hsize : dice.length < 2 ^ 32)
    (_hrange : ∀ d ∈ dice, 1 ≤ d ∧ d ≤ 6) :
    (dice ≠ [] → Rule.sum dice = some dice.sum) ∧ (Rule.sum dice = none ↔ dice = []) := by
  refine ⟨Rule.sum_eq dice, ?_, fun h => by rw [h]; rfl⟩
  intro h
  by_contra hne
  rw [Rule.sum_eq dice hne] at h
  exact Option.noConfusion h

theorem sum_spec_witness :
    ([4, 1, 6] : List Int).length < 2 ^ 32 ∧ (∀ d ∈ ([4, 1, 6] : List Int), 1 ≤ d ∧ d ≤ 6) ∧
    Rule.sum [4, 1, 6] = some 11 ∧ (Rule.sum [] = none ↔ ([] : List Int) = []) :=
  ⟨by decide, by decide, (sum_spec [4, 1, 6] (by decide) (by decide)).1 (by decide),
   (sum_spec [] (by decide) (by decide)).2⟩

/-- C15, as stated, fails: on the six dice 1, 1, 1, 1, 1, 2 the frequency list
has the two entries 5 and 1, the value 1 shows five times next to another value,
and `yahtzee.evalRoll` still returns 50. -/
theorem yahtzee_six_dice :
    yahtzee.evalRoll [1, 1, 1, 1, 1, 2] = some 50 ∧ Rule.freq [1, 1, 1, 1, 1, 2] = [5, 1] ∧
      Rule.freq [1, 1, 1, 1, 1, 2] ≠ [5] ∧ ([1, 1, 1, 1, 1, 2] : List Int).count 1 = 5 ∧
      (2 : Int) ∈ ([1, 1, 1, 1, 1, 2] : List Int) := by
  decide

/-- C15, amended: for every list of dice of any length, `yahtzee.evalRoll` returns
50 exactly when the first entry of `Rule.freq` equals 5, that is when the value of
the first die shows on exactly five dice of the list, and returns 0 otherwise; on
a list of exactly five dice this holds exactly when `Rule.freq` is the single
entry 5. -/
theorem yahtzee_first_entry (dice : List Int) :
    (yahtzee.evalRoll dice = some 50 ↔ (Rule.freq dice)[0]? = some 5) ∧
    ((Rule.freq dice)[0]? = some 5 ↔ ∃ d, dice.head? = some d ∧ dice.count d = 5) ∧
    ((¬ ∃ d, dice.head? = some d ∧ dice.count d = 5) → yahtzee.evalRoll dice = some 0) ∧
    (dice.length = 5 → (yahtzee.evalRoll dice = some 50 ↔ Rule.freq dice = [5])) := by
  have h : yahtzee.evalRoll dice =
      if (Rule.freq dice)[0]? = some 5 then some 50 else some 0 := rfl
  have h1 : yahtzee.evalRoll dice = some 50 ↔ (Rule.freq dice)[0]? = some 5 := by
    rw [h]
    by_cases hf : (Rule.freq dice)[0]? = some 5
    · simp [hf]
    · simp [hf]
  refine ⟨h1, Rule.freq_head_count dice, ?_, ?_⟩
  · intro hn
    rw [h, if_neg (fun hf => hn ((Rule.freq_head_count dice).1 hf))]
  · intro hlen
    rw [h1]
    exact Rule.freq_single dice hlen

theorem yahtzee_first_entry_witness :
    yahtzee.evalRoll [2, 1, 1, 1, 1, 1] = some 0 ∧
    (yahtzee.evalRoll [3, 3, 3, 3, 3] = some 50 ↔ Rule.freq [3, 3, 3, 3, 3] = [5]) :=
  ⟨(yahtzee_first_entry [2, 1, 1, 1, 1, 1]).2.2.1 (by decide),
   (yahtzee_first_entry [3, 3, 3, 3, 3]).2.2.2 (by decide)⟩

/-- C16: on every roll of five dice, each showing 1 to 6, the score of `fourOfKind`
is at most the score of `threeOfKind`, which is at most the score of `chance`; a
non-zero `fourOfKind` score equals the `threeOfKind` score, and a non-zero
`threeOfKind` score equals the `chance` score. -/
theorem ofKind_chain (dice : List Int) (hlen : dice.length = 5)
    (hrange : ∀ d ∈ dice, 1 ≤ d ∧ d ≤ 6) :
    ∃ a b c : Int, fourOfKind.evalRoll dice = some a ∧ threeOfKind.evalRoll dice = some b ∧
      chance.evalRoll dice = some c ∧ a ≤ b ∧ b ≤ c ∧ (a ≠ 0 → a = b) ∧ (b ≠ 0 → b = c) := by
  have hne := ne_nil_of_length_five dice hlen
  have hs := sum_bounds dice hrange
  rw [hlen] at hs
  have hc : chance.evalRoll dice = some dice.sum := by
    obtain ⟨d, hd⟩ := List.exists_mem_of_ne_nil dice hne
    exact sumDistro_pos 0 dice hne ⟨d, hd, Nat.zero_le _⟩
  by_cases h4 : ∃ v ∈ dice, 4 ≤ dice.count v
  · have h3 : ∃ v ∈ dice, 3 ≤ dice.count v := by
      obtain ⟨v, hv, hge⟩ := h4
      exact ⟨v, hv, by omega⟩
    exact ⟨dice.sum, dice.sum, dice.sum, sumDistro_pos 4 dice hne h4, sumDistro_pos 3 dice hne h3,
      hc, le_refl _, le_refl _, fun _ => rfl, fun _ => rfl⟩
  · by_cases h3 : ∃ v ∈ dice, 3 ≤ dice.count v
    · exact ⟨0, dice.sum, dice.sum, sumDistro_neg 4 dice h4, sumDistro_pos 3 dice hne h3,
        hc, by omega, le_refl _, fun h => absurd rfl h, fun _ => rfl⟩
    · exact ⟨0, 0, dice.sum, sumDistro_neg 4 dice h4, sumDistro_neg 3 dice h3,
        hc, le_refl _, by omega, fun _ => rfl, fun h => absurd rfl h⟩

theorem ofKind_chain_witness :
    ([6, 6, 2, 6, 1] : List Int).length = 5 ∧ (∀ d ∈ ([6, 6, 2, 6, 1] : List Int), 1 ≤ d ∧ d ≤ 6) ∧
    fourOfKind.evalRoll [6, 6, 2, 6, 1] = some 0 ∧ threeOfKind.evalRoll [6, 6, 2, 6, 1] = some 21 ∧
    ∃ a b c : Int, fourOfKind.evalRoll [6, 6, 2, 6, 1] = some a ∧
      threeOfKind.evalRoll [6, 6, 2, 6, 1] = some b ∧
      chance.evalRoll [6, 6, 2, 6, 1] = some c ∧ a ≤ b ∧ b ≤ c ∧ (a ≠ 0 → a = b) ∧ (b ≠ 0 → b = c) :=
  ⟨by decide, by decide, by decide, by decide,
   ofKind_chain [6, 6, 2, 6, 1] (by decide) (by decide)⟩

/-- C17: on every roll of five dice, each showing 1 to 6, the scores of `ones`,
`twos`, `threes`, `fours`, `fives` and `sixes` add up to the score of `chance`,
which is the sum of the dice. -/
theorem singles_add_up (dice : List Int) (hlen : dice.length = 5)
    (hrange : ∀ d ∈ dice, 1 ≤ d ∧ d ≤ 6) :
    ∃ s1 s2 s3 s4 s5 s6 c : Int, ones.evalRoll dice = some s1 ∧ twos.evalRoll dice = some s2 ∧
      threes.evalRoll dice = some s3 ∧ fours.evalRoll dice = some s4 ∧
      fives.evalRoll dice = some s5 ∧ sixes.evalRoll dice = some s6 ∧
      chance.evalRoll dice = some c ∧ s1 + s2 + s3 + s4 + s5 + s6 = c ∧ c = dice.sum := by
  have hne := ne_nil_of_length_five dice hlen
  have hc : chance.evalRoll dice = some dice.sum := by
    obtain ⟨d, hd⟩ := List.exists_mem_of_ne_nil dice hne
    exact sumDistro_pos 0 dice hne ⟨d, hd, Nat.zero_le _⟩
  have key : ∀ (v : Int) (text : String),
      (TotalOneNumber v text).evalRoll dice = some (v * (dice.count v : Int)) := by
    intro v text
    simp only [TotalOneNumber, TotalOneNumber.evalRoll, Rule.count_eq]
  exact ⟨_, _, _, _, _, _, _, key 1 _, key 2 _, key 3 _, key 4 _, key 5 _, key 6 _, hc,
    sum_by_value dice hrange, rfl⟩

theorem singles_add_up_witness :
    ([1, 3, 3, 6, 5] : List Int).length = 5 ∧ (∀ d ∈ ([1, 3, 3, 6, 5] : List Int), 1 ≤ d ∧ d ≤ 6) ∧
    ∃ s1 s2 s3 s4 s5 s6 c : Int, ones.evalRoll [1, 3, 3, 6, 5] = some s1 ∧
      twos.evalRoll [1, 3, 3, 6, 5] = some s2 ∧ threes.evalRoll [1, 3, 3, 6, 5] = some s3 ∧
      fours.evalRoll [1, 3, 3, 6, 5] = some s4 ∧ fives.evalRoll [1, 3, 3, 6, 5] = some s5 ∧
      sixes.evalRoll [1, 3, 3, 6, 5] = some s6 ∧ chance.evalRoll [1, 3, 3, 6, 5] = some c ∧
      s1 + s2 + s3 + s4 + s5 + s6 = c ∧ c = ([1, 3, 3, 6, 5] : List Int).sum :=
  ⟨by decide, by decide, singles_add_up [1, 3, 3, 6, 5] (by decide) (by decide)⟩

/-- C18: on every roll of five dice, each showing 1 to 6, if `largeStraight.evalRoll`
returns 40 then `smallStraight.evalRoll` returns 30. -/
theorem large_implies_small (dice : List Int) (hlen : dice.length = 5)
    (hrange : ∀ d ∈ dice, 1 ≤ d ∧ d ≤ 6) (hlarge : largeStraight.evalRoll dice = some 40) :
    smallStraight.evalRoll dice = some 30 := by
  have htest := largeStraight_test dice hlen hrange
  have h : largeStraight.evalRoll dice =
      if (decide (JsSet.size (JsSet.ofArray dice) = 5) &&
        (!JsSet.has (JsSet.ofArray dice) 1 || !JsSet.has (JsSet.ofArray dice) 6)) = true
      then some 40 else some 0 := rfl
  have hperm : dice.Perm [1, 2, 3, 4, 5] ∨ dice.Perm [2, 3, 4, 5, 6] := by
    by_contra hn
    rw [h, if_neg (fun ht => hn (htest.1 ht))] at hlarge
    exact absurd (Option.some.inj hlarge) (by decide)
  have hs := smallStraight_test 30 dice
  change smallStraight.evalRoll dice = _ at hs
  rw [hs]
  rcases hperm with hp | hp
  · exact if_pos (Or.inl ⟨hp.mem_iff.2 (by decide), hp.mem_iff.2 (by decide),
      hp.mem_iff.2 (by decide), hp.mem_iff.2 (by decide)⟩)
  · exact if_pos (Or.inr (Or.inl ⟨hp.mem_iff.2 (by decide), hp.mem_iff.2 (by decide),
      hp.mem_iff.2 (by decide), hp.mem_iff.2 (by decide)⟩))

theorem large_implies_small_witness :
    ([5, 1, 4, 2, 3] : List Int).length = 5 ∧ (∀ d ∈ ([5, 1, 4, 2, 3] : List Int), 1 ≤ d ∧ d ≤ 6) ∧
    largeStraight.evalRoll [5, 1, 4, 2, 3] = some 40 ∧
    smallStraight.evalRoll [5, 1, 4, 2, 3] = some 30 :=
  ⟨by decide, by decide, by decide,
   large_implies_small [5, 1, 4, 2, 3] (by decide) (by decide) (by decide)⟩

/-- C19: on the empty roll every one of the thirteen catalogue rules returns 0 and
none throws, although `Rule.sum` throws on the empty array: the frequency list of
the empty roll is empty, so the threshold test of `threeOfKind`, `fourOfKind` and
`chance` (with `count = 0`) fails and `Rule.sum` is not called. -/
theorem empty_roll :
    Rule.sum [] = none ∧ Rule.freq [] = [] ∧
    (∀ count : Nat, (Rule.freq []).any (fun c => decide (c ≥ count)) = false) ∧
    (∀ r ∈ catalogue, r.evalRoll [] = some 0) := by
  refine ⟨rfl, rfl, fun _ => rfl, ?_⟩
  intro r hr
  simp only [catalogue, List.mem_cons, List.mem_singleton, List.not_mem_nil, or_false] at hr
  rcases hr with rfl | rfl | rfl | rfl | rfl | rfl | rfl | rfl | rfl | rfl | rfl | rfl | rfl <;>
    decide

end Rules

/-! ## The class string of a die -/

/-- C20 fails on the code when both props are true: `Die.render` appends
`"Die-rolling"` straight after `"Die-locked"` without a space, so the class string
is `"Die Die-lockedDie-rolling"` and neither `"Die-locked"` nor `"Die-rolling"` is
one of its class names. With at most one of the props true the class names are
`"Die"` followed by the name of the prop that is set, if any. -/
theorem Die.classes_locked_rolling :
    Die.classes true true = "Die Die-lockedDie-rolling" ∧
    Die.classNames (Die.classes true true) = ["Die", "Die-lockedDie-rolling"] ∧
    "Die-locked" ∉ Die.classNames (Die.classes true true) ∧
    "Die-rolling" ∉ Die.classNames (Die.classes true true) ∧
    Die.classNames (Die.classes false false) = ["Die", ""] ∧
    Die.classNames (Die.classes true false) = ["Die", "Die-locked"] ∧
    Die.classNames (Die.classes false true) = ["Die", "Die-rolling"] := by
  decide
